import Mathlib

/-!
Verification of the FlowCtl distributed task-queue / workflow-orchestrator
core against its natural-language specification.

The Go source is shallowly embedded: pure fragments become Lean functions,
stateful fragments become explicit state-passing functions, Go `int` /
`time.Duration` become `Int` (with 64-bit wrap made explicit where the
source can overflow), and timestamps become logical `Nat` clocks.
Serialized task payloads (ToJSON/FromJSON round-trips) are modelled by the
task record itself.
-/

namespace FlowCtl

/-! ## Data model (internal/core model types) -/

/-- Task status enumeration from internal/core. -/
inductive TaskStatus where
  | pending
  | running
  | completed
  | failed
  | retrying
  | cancelled
deriving DecidableEq, Repr

/-- Workflow status enumeration from internal/core. -/
inductive WorkflowStatus where
  | pending
  | running
  | completed
  | failed
  | cancelled
deriving DecidableEq, Repr

/-- RetryPolicy from internal/core; delays are nanoseconds, the float64
backoff factor is modelled as an integer (exact for the values used). -/
structure RetryPolicy where
  maxAttempts : Int
  initialDelay : Int
  maxDelay : Int
  backoffFactor : Int
deriving DecidableEq, Repr

/-- WorkflowConfig from internal/core (timeout in nanoseconds). -/
structure WorkflowConfig where
  maxConcurrency : Int
  timeout : Int
  retryPolicy : RetryPolicy
deriving DecidableEq, Repr

/-- Task from internal/core.  `payload` and `result` are opaque structured
values, modelled as strings; timestamps are logical clocks. -/
structure Task where
  id : String
  workflowID : String
  name : String
  ttype : String
  payload : String
  status : TaskStatus
  result : Option String
  error : String
  retryCount : Int
  maxRetries : Int
  priority : Int
  dependencies : List String
  createdAt : Nat
  updatedAt : Nat
  startedAt : Option Nat
  completedAt : Option Nat
deriving DecidableEq, Repr

/-- Workflow from internal/core. -/
structure Workflow where
  id : String
  name : String
  description : String
  status : WorkflowStatus
  tasks : List Task
  config : WorkflowConfig
  createdAt : Nat
  updatedAt : Nat
  startedAt : Option Nat
  completedAt : Option Nat
deriving DecidableEq, Repr

/-- The default retry policy installed by NewWorkflow: 3 attempts, 1s
initial delay, 5min max delay, factor 2.0. -/
def defaultRetryPolicy : RetryPolicy :=
  { maxAttempts := 3
    initialDelay := 1000000000
    maxDelay := 300000000000
    backoffFactor := 2 }

/-- NewTask from internal/core: fresh task with status pending,
retry_count 0, max_retries 3, priority 1 and no dependencies.  The
uuid.New() call is modelled by the injected `id`; time.Now() by `now`. -/
def newTask (id workflowID name ttype payload : String) (now : Nat) : Task :=
  { id := id
    workflowID := workflowID
    name := name
    ttype := ttype
    payload := payload
    status := .pending
    result := none
    error := ""
    retryCount := 0
    maxRetries := 3
    priority := 1
    dependencies := []
    createdAt := now
    updatedAt := now
    startedAt := none
    completedAt := none }

/-- NewWorkflow from internal/core. -/
def newWorkflow (id name description : String) (now : Nat) : Workflow :=
  { id := id
    name := name
    description := description
    status := .pending
    tasks := []
    config :=
      { maxConcurrency := 10
        timeout := 3600000000000
        retryPolicy := defaultRetryPolicy }
    createdAt := now
    updatedAt := now
    startedAt := none
    completedAt := none }

/-! ## Scheduler ready-set computation (internal/core/scheduler.go) -/

/-- Task.CanExecute: every dependency must be a key of the completed map,
and the task's own status must be pending or retrying. -/
def canExecute (t : Task) (completedTasks : List String) : Bool :=
  t.dependencies.all (fun dep => completedTasks.contains dep) &&
    (t.status == .pending || t.status == .retrying)

/-- The `completedTasks` map built by scheduleWorkflowTasks: it is keyed by
the *ID* of each completed task of the workflow. -/
def completedTasksMap (workflow : Workflow) : List String :=
  (workflow.tasks.filter (fun t => t.status == .completed)).map (fun t => t.id)

/-- The set of tasks scheduleWorkflowTasks enqueues for one workflow in one
tick: nothing when the workflow status is not pending/running, otherwise
the members of the pending/retrying group passing CanExecute against the
ID-keyed completed map. -/
def tasksToSchedule (workflow : Workflow) (group : List Task) : List Task :=
  if workflow.status == .pending || workflow.status == .running then
    group.filter (fun t => canExecute t (completedTasksMap workflow))
  else []

/-- Names (not IDs) of the completed tasks of a workflow; this is the set
the specification's eligibility rule quantifies over, since dependencies
are stored as task names. -/
def completedTaskNames (workflow : Workflow) : List String :=
  (workflow.tasks.filter (fun t => t.status == .completed)).map (fun t => t.name)

/-! ## Completion monitor (internal/core/scheduler.go) -/

/-- checkWorkflowCompletion: the source body is exactly `return nil`; it
performs no store reads or writes, so as a transformer on the set of
persisted workflows it is the identity. -/
def checkWorkflowCompletion (workflows : List Workflow) : List Workflow :=
  workflows

/-! ## State store (storage layer, PostgresStore) -/

/-- UpdateTaskStatus from the storage layer: the status-conditional UPDATE
switch.  `running` sets started_at; `completed` sets result and
completed_at; `failed` sets error and completed_at; `retrying` increments
retry_count; every branch sets updated_at.  `now` is time.Now(). -/
def updateTaskStatus (t : Task) (status : TaskStatus) (result : Option String)
    (errorMsg : String) (now : Nat) : Task :=
  match status with
  | .running =>
    { t with status := status, startedAt := some now, updatedAt := now }
  | .completed =>
    { t with status := status, result := result, completedAt := some now, updatedAt := now }
  | .failed =>
    { t with status := status, error := errorMsg, completedAt := some now, updatedAt := now }
  | .retrying =>
    { t with status := status, retryCount := t.retryCount + 1, updatedAt := now }
  | _ =>
    { t with status := status, updatedAt := now }

/-! ## Work queue (Redis layer) -/

/-- The four per-type channels of the work queue.  List heads correspond to
the Redis list heads (LPush side); the retry channel is the sorted set with
its epoch-second score. -/
structure QueueState where
  ready : List Task
  processing : List Task
  retry : List (Task × Int)
  deadLetter : List Task
deriving DecidableEq, Repr

/-- The empty queue. -/
def emptyQueue : QueueState :=
  { ready := [], processing := [], retry := [], deadLetter := [] }

/-- LRem with count 1: remove the first occurrence (from the head) of the
serialized task. -/
def lrem1 : List Task → Task → List Task
  | [], _ => []
  | x :: xs, t => if x = t then xs else x :: lrem1 xs t

/-- Truncated 64-bit two's-complement wrap of an integer, as Go int64
arithmetic produces. -/
def wrap64 (x : Int) : Int :=
  let m := x % (2 ^ 64 : Int)
  if m < 2 ^ 63 then m else m - 2 ^ 64

/-- Go's `1 << uint(rc)` at 64 bits: shifting by 64 or more (including the
wrapped image of a negative count) yields 0; otherwise the two's-complement
image of 2^rc. -/
def goShl1 (rc : Int) : Int :=
  if 0 ≤ rc ∧ rc < 64 then wrap64 (2 ^ rc.toNat) else 0

/-- calculateBackoff from the Redis queue layer: base 2s times 2^retryCount
in int64 nanoseconds, capped at 5 minutes.  The workflow RetryPolicy is not
consulted anywhere in this function. -/
def calculateBackoff (retryCount : Int) : Int :=
  let base : Int := 2000000000
  let backoff := wrap64 (base * goShl1 retryCount)
  if backoff > 300000000000 then 300000000000 else backoff

/-- EnqueueTask: LPush of the serialized task onto ready. -/
def enqueueTask (q : QueueState) (task : Task) : QueueState :=
  { q with ready := task :: q.ready }

/-- DequeueTask: BRPopLPush ready → processing, i.e. pop the tail of ready
and LPush it onto processing. -/
def dequeueTask (q : QueueState) : Option Task × QueueState :=
  match q.ready.getLast? with
  | none => (none, q)
  | some t =>
    (some t, { q with ready := q.ready.dropLast, processing := t :: q.processing })

/-- AckTask: LRem of one occurrence of the serialized task from processing. -/
def ackTask (q : QueueState) (task : Task) : QueueState :=
  { q with processing := lrem1 q.processing task }

/-- NackTask: remove from processing; if the serialized retry_count is
below max_retries, ZAdd into the retry set scored now + backoff(retry_count)
in epoch seconds, else LPush onto dead_letter.  `now` is in epoch seconds. -/
def nackTask (q : QueueState) (task : Task) (now : Int) : QueueState :=
  let q1 := { q with processing := lrem1 q.processing task }
  if task.retryCount < task.maxRetries then
    { q1 with retry := q1.retry ++ [(task, now + calculateBackoff task.retryCount / 1000000000)] }
  else
    { q1 with deadLetter := task :: q1.deadLetter }

/-- ProcessRetries: every retry entry scored at or before now is ZRem-ed
and LPush-ed back onto ready.  (The source reads scores from 0 up to now in
batches of 100; scores are non-negative and the traces here fit one batch,
so the lower bound and batch limit are elided.) -/
def processRetries (q : QueueState) (now : Int) : QueueState :=
  let due := q.retry.filter (fun p => decide (p.2 ≤ now))
  { q with
    retry := q.retry.filter (fun p => !decide (p.2 ≤ now))
    ready := (due.map (fun p => p.1)).reverse ++ q.ready }

/-! ## Worker runtime and status ingress -/

/-- Combined system state for worker-protocol traces: the persisted record
of the single task under test plus its type's queue channels. -/
structure SysState where
  store : Task
  queue : QueueState
deriving DecidableEq, Repr

/-- Modelled from the spec: the Status Ingress endpoint
(POST /api/v1/tasks/:id/status) is absent from the source (setupRoutes
registers no such route); per spec section 4.5 it delegates to
State Store.UpdateTaskStatus.  Worker status reports are routed through
this model. -/
def reportTaskStatus (stored : Task) (status : TaskStatus) (result : Option String)
    (errorMsg : String) (now : Nat) : Task :=
  updateTaskStatus stored status result errorMsg now

/-- The worker's executeTask when the task body fails: report running, then
if the dequeued copy's retry_count is below max_retries, Nack it and report
retrying; else Ack it and report failed.  `tRun` and `tFail` are the
logical times of the two reports (`tFail` doubling as the Nack's epoch
seconds). -/
def workerFailStep (s : SysState) (qtask : Task) (errMsg : String)
    (tRun tFail : Nat) : SysState :=
  let store1 := reportTaskStatus s.store .running none "" tRun
  if qtask.retryCount < qtask.maxRetries then
    { store := reportTaskStatus store1 .retrying none errMsg tFail
      queue := nackTask s.queue qtask (tFail : Int) }
  else
    { store := reportTaskStatus store1 .failed none errMsg tFail
      queue := ackTask s.queue qtask }

/-! ## HTTP API (internal/api/server.go) -/

/-- HTTP methods used by the router. -/
inductive HttpMethod where
  | get
  | post
  | put
deriving DecidableEq, Repr

/-- One segment of a registered route pattern: a literal, or a Gin `:name`
path parameter. -/
inductive RouteSeg where
  | lit (s : String)
  | param
deriving DecidableEq, Repr

/-- The routes registered by setupRoutes, as (method, pattern) pairs, in
source order.  The remaining handlers (Static, StaticFile, NoRoute) serve
dashboard files and never touch the state store, so any unmatched request —
including a worker's status callback — performs no store write. -/
def registeredRoutes : List (HttpMethod × List RouteSeg) :=
  [ (.post, [.lit "api", .lit "v1", .lit "workflows"])
  , (.get, [.lit "api", .lit "v1", .lit "workflows", .param])
  , (.put, [.lit "api", .lit "v1", .lit "workflows", .param, .lit "cancel"])
  , (.get, [.lit "api", .lit "v1", .lit "workflows"])
  , (.get, [.lit "api", .lit "v1", .lit "tasks", .param])
  , (.get, [.lit "api", .lit "v1", .lit "workflows", .param, .lit "tasks"])
  , (.get, [.lit "api", .lit "v1", .lit "health"])
  , (.get, [.lit "api", .lit "v1", .lit "metrics"]) ]

/-- Gin-style segment matching: a path parameter matches any concrete
segment, a literal only itself; lengths must agree. -/
def matchSegs : List RouteSeg → List String → Bool
  | [], [] => true
  | RouteSeg.lit p :: ps, s :: ss => p == s && matchSegs ps ss
  | RouteSeg.param :: ps, _ :: ss => matchSegs ps ss
  | _, _ => false

/-- The path the worker's notifyTaskStatus posts its status callback to,
split into segments. -/
def statusCallbackPath (taskID : String) : List String :=
  ["api", "v1", "tasks", taskID, "status"]

/-- CreateTaskRequest from the HTTP API. -/
structure CreateTaskRequest where
  name : String
  ttype : String
  payload : String
  maxRetries : Int
  priority : Int
  dependencies : Option (List String)
deriving DecidableEq, Repr

/-- CreateWorkflowRequest from the HTTP API. -/
structure CreateWorkflowRequest where
  name : String
  description : String
  tasks : List CreateTaskRequest
  config : Option WorkflowConfig
deriving DecidableEq, Repr

/-- The per-task body of the createWorkflow handler: NewTask, then override
max_retries and priority only when the request values are positive, and
dependencies only when present. -/
def buildTaskFromRequest (id workflowID : String) (now : Nat)
    (req : CreateTaskRequest) : Task :=
  let t := newTask id workflowID req.name req.ttype req.payload now
  let t := if req.maxRetries > 0 then { t with maxRetries := req.maxRetries } else t
  let t := if req.priority > 0 then { t with priority := req.priority } else t
  match req.dependencies with
  | some deps => { t with dependencies := deps }
  | none => t

/-- The persisted rows an API-server run accumulates. -/
structure ApiStore where
  workflows : List Workflow
  tasks : List Task
deriving DecidableEq, Repr

/-- PostgresStore.CreateWorkflow: inserts the workflow row (no dependency
validation is performed by the store). -/
def storeCreateWorkflow (st : ApiStore) (w : Workflow) : ApiStore :=
  { st with workflows := st.workflows ++ [w] }

/-- PostgresStore.CreateTask: inserts a task row. -/
def storeCreateTask (st : ApiStore) (t : Task) : ApiStore :=
  { st with tasks := st.tasks ++ [t] }

/-- Scheduler.SubmitWorkflow: CreateWorkflow then CreateTask for every
task; no validation, no enqueue. -/
def submitWorkflow (st : ApiStore) (w : Workflow) : ApiStore :=
  w.tasks.foldl storeCreateTask (storeCreateWorkflow st w)

/-- The createWorkflow HTTP handler on a request that binds successfully:
build the workflow (uuid and clock injected), apply the optional config,
build each task, submit, and answer 201.  No dependency check of any kind
occurs on this path. -/
def createWorkflowHandler (st : ApiStore) (req : CreateWorkflowRequest)
    (wfID : String) (taskIDs : List String) (now : Nat) : Nat × ApiStore :=
  let wf0 := newWorkflow wfID req.name req.description now
  let wf0 :=
    match req.config with
    | some cfg => { wf0 with config := cfg }
    | none => wf0
  let tasks := (req.tasks.zip taskIDs).map
    (fun p => buildTaskFromRequest p.2 wfID now p.1)
  let wf := { wf0 with tasks := tasks }
  (201, submitWorkflow st wf)

/-! ## YAML ingestion (internal/core/yaml_parser.go) -/

/-- TaskSpec from the YAML parser. -/
structure TaskSpec where
  name : String
  ttype : String
  payload : String
  maxRetries : Int
  priority : Int
  dependencies : List String
deriving DecidableEq, Repr

/-- The per-task body of convertSpecToWorkflow: NewTask, positive-only
overrides for max_retries and priority, dependencies copied verbatim. -/
def convertTaskSpec (id workflowID : String) (now : Nat) (spec : TaskSpec) : Task :=
  let t := newTask id workflowID spec.name spec.ttype spec.payload now
  let t := if spec.maxRetries > 0 then { t with maxRetries := spec.maxRetries } else t
  let t := if spec.priority > 0 then { t with priority := spec.priority } else t
  { t with dependencies := spec.dependencies }

/-- The dangling-dependency scan of validateWorkflowDependencies: the first
(task name, dependency) pair whose dependency is not a task name. -/
def findDanglingDep (names : List String) : List Task → Option (String × String)
  | [] => none
  | t :: ts =>
    match t.dependencies.find? (fun dep => !names.contains dep) with
    | some dep => some (t.name, dep)
    | none => findDanglingDep names ts

/-- One Go map insertion `taskDeps[task.Name] = task.Dependencies`:
replace any previous binding of the name. -/
def depsStep (m : List (String × List String)) (t : Task) :
    List (String × List String) :=
  (t.name, t.dependencies) :: m.filter (fun p => p.1 ≠ t.name)

/-- The taskDeps map of hasCycle: name → dependencies, later tasks
overwriting earlier ones as Go map insertion does. -/
def buildTaskDeps (tasks : List Task) : List (String × List String) :=
  tasks.foldl depsStep []

/-- Lookup in the taskDeps map; a missing key yields the empty list, as a
Go map read does. -/
def depsOf (m : List (String × List String)) (n : String) : List String :=
  match m.find? (fun p => p.1 == n) with
  | some p => p.2
  | none => []

/-- The dependency graph of a task list: successors of a name under the
taskDeps map. -/
def depGraph (tasks : List Task) (n : String) : List String :=
  depsOf (buildTaskDeps tasks) n

/-- The dependency loop of hasCycleUtil, abstracted over the recursive
exploration function: an unvisited dependency is explored; a dependency on
the recursion stack reports a cycle; the stack check is repeated after an
exploration returns false, as in the source. -/
def dfsDeps (nodeFn : String → List String → List String → Bool × List String) :
    List String → List String → List String → Bool × List String
  | [], visited, _ => (false, visited)
  | d :: ds, visited, path =>
    if visited.contains d then
      if path.contains d then (true, visited)
      else dfsDeps nodeFn ds visited path
    else
      match nodeFn d visited path with
      | (true, v) => (true, v)
      | (false, v) =>
        if path.contains d then (true, v)
        else dfsDeps nodeFn ds v path

/-- One hasCycleUtil call: mark the node visited and on the recursion
stack, then walk its dependencies.  `fuel` bounds the recursion depth (the
Go original terminates because `visited` only grows); fuel exhaustion
reports no cycle, and is proved unreachable for the fuel hasCycle supplies. -/
def dfsNode (g : String → List String) :
    Nat → String → List String → List String → Bool × List String
  | 0, _, visited, _ => (false, visited)
  | fuel + 1, n, visited, path =>
    dfsDeps (dfsNode g fuel) (g n) (n :: visited) (n :: path)

/-- The outer loop of hasCycle: run hasCycleUtil from every not-yet-visited
task name, threading the visited set. -/
def dfsForest (g : String → List String) (fuel : Nat) :
    List String → List String → Bool
  | [], _ => false
  | n :: ns, visited =>
    if visited.contains n then dfsForest g fuel ns visited
    else
      match dfsNode g fuel n visited [] with
      | (true, _) => true
      | (false, v) => dfsForest g fuel ns v

/-- Every name the DFS can ever touch: the task names together with every
dependency string. -/
def cycleUniverse (tasks : List Task) : List String :=
  tasks.map (fun t => t.name) ++ tasks.flatMap (fun t => t.dependencies)

/-- hasCycle from the YAML parser: three-color DFS over the taskDeps map,
started from every task name. -/
def hasCycle (tasks : List Task) : Bool :=
  dfsForest (depGraph tasks) ((cycleUniverse tasks).length + 1)
    (tasks.map (fun t => t.name)) []

/-- validateWorkflowDependencies: reject the first dangling dependency,
then reject circular dependencies; otherwise accept. -/
def validateWorkflowDependencies (tasks : List Task) : Option String :=
  let names := tasks.map (fun t => t.name)
  match findDanglingDep names tasks with
  | some p => some ("task " ++ p.1 ++ " depends on non-existent task " ++ p.2)
  | none =>
    if hasCycle tasks then some "workflow contains circular dependencies"
    else none

/-- One edge of a successor-list graph: `b` is a successor of `a`. -/
def GEdge (g : String → List String) (a b : String) : Prop :=
  b ∈ g a

/-- One edge of the dependency graph: `b` is a stored dependency of `a`. -/
def DepEdge (tasks : List Task) : String → String → Prop :=
  GEdge (depGraph tasks)

/-- The specification-level notion of a cyclic dependency graph: some name
reaches itself through at least one dependency edge. -/
def HasDepCycle (tasks : List Task) : Prop :=
  ∃ n, Relation.TransGen (DepEdge tasks) n n

/-- A node finished by the DFS: visited and no longer on the recursion
stack. -/
def Black (v path : List String) (m : String) : Prop :=
  m ∈ v ∧ m ∉ path

/-- The three-color DFS invariant: every finished node only reaches
finished nodes, and no finished node lies on a cycle. -/
def Inv (g : String → List String) (v path : List String) : Prop :=
  ∀ m, Black v path m →
    (∀ x, Relation.ReflTransGen (GEdge g) m x → Black v path x) ∧
    ¬ Relation.TransGen (GEdge g) m m

/-- The recursion stack is a chain of dependency edges, child first. -/
def PathOk (g : String → List String) (p : List String) : Prop :=
  List.Chain' (fun a b => a ∈ g b) p

/-- Common postcondition of a false-returning DFS call: the visited list
grew as a suffix-extension, stayed duplicate-free inside the universe, and
the invariant holds at the caller's stack. -/
def DfsPost (g : String → List String) (U v path vf : List String) : Prop :=
  v <:+ vf ∧ vf.Nodup ∧ vf ⊆ U ∧ Inv g vf path

/-- Full behavioural specification of dfsNode at a given fuel. -/
def NodeSpec (g : String → List String) (U : List String) (fuel : Nat) : Prop :=
  ∀ n v path,
    v.Nodup → v ⊆ U → path ⊆ v → PathOk g (n :: path) →
    n ∈ U → n ∉ v → Inv g v path → U.length - v.length ≤ fuel →
    ((dfsNode g fuel n v path).1 = true → ∃ m, Relation.TransGen (GEdge g) m m) ∧
    ((dfsNode g fuel n v path).1 = false →
      DfsPost g U v path (dfsNode g fuel n v path).2 ∧
      n ∈ (dfsNode g fuel n v path).2)

/-- Full behavioural specification of dfsDeps run with the fuelled
exploration function. -/
def DepsSpec (g : String → List String) (U : List String) (fuel : Nat) : Prop :=
  ∀ deps n₀ path v,
    (∀ d ∈ deps, d ∈ g n₀) → v.Nodup → v ⊆ U → (n₀ :: path) ⊆ v →
    PathOk g (n₀ :: path) → Inv g v (n₀ :: path) → U.length - v.length ≤ fuel →
    ((dfsDeps (dfsNode g fuel) deps v (n₀ :: path)).1 = true →
      ∃ m, Relation.TransGen (GEdge g) m m) ∧
    ((dfsDeps (dfsNode g fuel) deps v (n₀ :: path)).1 = false →
      DfsPost g U v (n₀ :: path) (dfsDeps (dfsNode g fuel) deps v (n₀ :: path)).2 ∧
      ∀ d ∈ deps, d ∈ (dfsDeps (dfsNode g fuel) deps v (n₀ :: path)).2 ∧
        d ∉ (n₀ :: path))

/-! ## Spec-side reference definitions -/

/-- Modelled from the spec: the effective delay before the n-th retry,
min(max_delay, initial_delay * backoff_factor ^ n), taken from the
workflow's RetryPolicy.  Stated from the spec's words for comparison with
calculateBackoff. -/
def specBackoff (p : RetryPolicy) (n : Nat) : Int :=
  min p.maxDelay (p.initialDelay * p.backoffFactor ^ n)

/-! ## Concrete fixtures for the scheduler claims -/

/-- A completed task, id "id-a", name "A". -/
def taskA : Task :=
  { newTask "id-a" "wf-1" "A" "generic" "" 0 with status := .completed }

/-- A pending task, id "id-b", name "B", depending (by name) on "A". -/
def taskB : Task :=
  { newTask "id-b" "wf-1" "B" "generic" "" 0 with dependencies := ["A"] }

/-- A running workflow owning the completed task A and the pending task B. -/
def wfC1 : Workflow :=
  { newWorkflow "wf-1" "w" "" 0 with status := .running, tasks := [taskA, taskB] }

/-- A running workflow all of whose tasks are completed. -/
def wfC5 : Workflow :=
  { newWorkflow "wf-5" "w" "" 0 with status := .running, tasks := [taskA] }

/-! ## Concrete fixtures for the retry-exhaustion trace (claims about the
worker protocol).  Task Y has max_retries 1 and fails on both attempts. -/

/-- Task Y: pending, retry_count 0, max_retries 1. -/
def taskY : Task :=
  { newTask "y" "wf-3" "Y" "generic" "" 0 with maxRetries := 1 }

/-- Initial system state: Y persisted, queue empty. -/
def c34s0 : SysState :=
  { store := taskY, queue := emptyQueue }

/-- Scheduler tick: enqueue the serialized Y and re-mark it pending (t=1). -/
def c34s1 : SysState :=
  { store := updateTaskStatus c34s0.store .pending none "" 1
    queue := enqueueTask c34s0.queue taskY }

/-- Worker dequeues the first attempt. -/
def c34s2 : SysState :=
  { c34s1 with queue := (dequeueTask c34s1.queue).2 }

/-- First attempt fails: running reported at t=2, Nack and retrying report
at t=3.  The dequeued copy still carries retry_count 0. -/
def c34s3 : SysState :=
  workerFailStep c34s2 taskY "boom" 2 3

/-- Retry-promotion tick at t=60 moves the due entry back to ready. -/
def c34s4 : SysState :=
  { c34s3 with queue := processRetries c34s3.queue 60 }

/-- Worker dequeues the second attempt: the same serialized copy, its
retry_count still 0. -/
def c34s5 : SysState :=
  { c34s4 with queue := (dequeueTask c34s4.queue).2 }

/-- Second attempt fails: running at t=61, Nack and retrying report at
t=62. -/
def c34final : SysState :=
  workerFailStep c34s5 taskY "boom" 61 62

/-! ## Concrete fixture for cyclic HTTP submission -/

/-- A submission whose two tasks name each other as dependencies. -/
def reqC6 : CreateWorkflowRequest :=
  { name := "cyclic"
    description := ""
    tasks :=
      [ { name := "A", ttype := "generic", payload := "", maxRetries := 0,
          priority := 0, dependencies := some ["B"] }
      , { name := "B", ttype := "generic", payload := "", maxRetries := 0,
          priority := 0, dependencies := some ["A"] } ]
    config := none }

/-- Outcome of POSTing the cyclic submission to the createWorkflow
handler against an empty store. -/
def c6result : Nat × ApiStore :=
  createWorkflowHandler { workflows := [], tasks := [] } reqC6 "wf-6"
    ["t-a", "t-b"] 0

/-! # Theorems -/

/-- C1: the claim says a pending task every one of whose *named*
dependencies is completed is enqueued by the scheduler tick.  The code
disagrees: scheduleWorkflowTasks keys its completed map by task ID while
CanExecute looks dependency *names* up in it, so task B — pending, its
single dependency "A" completed — is not scheduled. -/
theorem c1_completed_dependency_not_enqueued :
    taskB.status = TaskStatus.pending ∧
    (∀ d ∈ taskB.dependencies, d ∈ completedTaskNames wfC1) ∧
    tasksToSchedule wfC1 [taskB] = [] := by
  decide

/-- C2: the claim says POST /api/v1/tasks/:id/status is served and
delegates to UpdateTaskStatus.  No route registered by setupRoutes matches
the worker's status-callback path for any task id, so no handler exists to
perform that delegation. -/
theorem c2_status_callback_route_missing (taskID : String) :
    (registeredRoutes.all
      (fun r =>
        !(r.1 == HttpMethod.post && matchSegs r.2 (statusCallbackPath taskID))))
      = true := by
  rfl

/-- C3: the claim says a max_retries=1 task failing both attempts ends
stored as failed with retry_count 1 and one dead-letter entry.  Running the
claim's own trace (fail, Nack of the serialized copy, retry promotion,
second fail) ends with stored status retrying, retry_count 2, and an empty
dead-letter channel, because the requeued serialized copy still carries
retry_count 0. -/
theorem c3_retry_exhaustion_trace :
    (dequeueTask c34s1.queue).1 = some taskY ∧
    (dequeueTask c34s4.queue).1 = some taskY ∧
    c34final.store.status = TaskStatus.retrying ∧
    c34final.store.retryCount = 2 ∧
    c34final.queue.deadLetter = [] := by
  decide

/-- C4: the claim says no worker-protocol-driven sequence of store
operations raises retry_count above max_retries.  The two-failure trace of
task Y does exactly that: the stored retry_count reaches 2 while
max_retries is 1. -/
theorem c4_retry_count_exceeds_max :
    c34final.store.maxRetries = 1 ∧ c34final.store.retryCount = 2 ∧
    ¬ c34final.store.retryCount ≤ c34final.store.maxRetries := by
  decide

/-- C5: the claim says each monitor tick transitions a running workflow
whose tasks are all completed to completed.  checkWorkflowCompletion is
`return nil`: it changes nothing, so such a workflow is still running after
the tick. -/
theorem c5_monitor_never_completes_workflow :
    wfC5.status = WorkflowStatus.running ∧
    (∀ t ∈ wfC5.tasks, t.status = TaskStatus.completed) ∧
    checkWorkflowCompletion [wfC5] = [wfC5] := by
  decide

/-- C6: the claim says an HTTP submission with a cyclic dependency graph
gets 400 and writes nothing.  The createWorkflow handler performs no
dependency validation: the A↔B submission is answered 201 and one workflow
row plus both task rows are written — rows the YAML validator itself
recognises as cyclic. -/
theorem c6_cyclic_submission_accepted :
    c6result.1 = 201 ∧
    c6result.2.workflows.length = 1 ∧
    c6result.2.tasks.length = 2 ∧
    hasCycle c6result.2.tasks = true := by
  decide

/-- C8 counterexample: the claim equates the effective delay with
min(max_delay, initial_delay · backoff_factor^n) under the workflow's
RetryPolicy; with the default policy (initial_delay 1s) that is 1s at
n = 0, but calculateBackoff 0 is 2s. -/
theorem c8_backoff_ignores_policy_counterexample :
    calculateBackoff 0 ≠ specBackoff defaultRetryPolicy 0 := by
  decide

/-- C8 amended: calculateBackoff ignores the RetryPolicy entirely; the
delay is min(5 min, 2s · 2^n) exactly for 0 ≤ n ≤ 32 (beyond which the
int64 product wraps), backoff(0) = 2s, and the result never exceeds 5
minutes. -/
theorem c8_backoff_amended :
    (∀ n : Int, 0 ≤ n → n ≤ 32 →
      calculateBackoff n = min 300000000000 (2000000000 * 2 ^ n.toNat)) ∧
    (∀ n : Int, calculateBackoff n ≤ 300000000000) ∧
    calculateBackoff 0 = 2000000000 := by
  refine ⟨?_, ?_, by decide⟩
  · intro n h0 h32
    have hcond : 0 ≤ n ∧ n < 64 := ⟨h0, by omega⟩
    have hk32 : n.toNat ≤ 32 := by omega
    have hpow_le : (2 : Int) ^ n.toNat ≤ 2 ^ 32 :=
      pow_le_pow_right₀ (by norm_num) hk32
    have hpow_pos : (0 : Int) < 2 ^ n.toNat := by positivity
    have hw1 : wrap64 ((2 : Int) ^ n.toNat) = 2 ^ n.toNat := by
      simp only [wrap64]
      rw [Int.emod_eq_of_lt (by positivity)
        (lt_of_le_of_lt hpow_le (by norm_num))]
      exact if_pos (lt_of_le_of_lt hpow_le (by norm_num))
    have hmul_le : (2000000000 : Int) * 2 ^ n.toNat ≤ 2000000000 * 2 ^ 32 :=
      mul_le_mul_of_nonneg_left hpow_le (by norm_num)
    have hmul_lt : (2000000000 : Int) * 2 ^ n.toNat < 2 ^ 63 :=
      lt_of_le_of_lt hmul_le (by norm_num)
    have hw2 : wrap64 ((2000000000 : Int) * 2 ^ n.toNat) =
        2000000000 * 2 ^ n.toNat := by
      simp only [wrap64]
      rw [Int.emod_eq_of_lt (by positivity)
        (lt_trans hmul_lt (by norm_num))]
      exact if_pos hmul_lt
    simp only [calculateBackoff, goShl1, if_pos hcond, hw1, hw2]
    rcases le_or_lt ((2000000000 : Int) * 2 ^ n.toNat) 300000000000 with h | h
    · rw [if_neg (by omega), min_eq_right h]
    · rw [if_pos h, min_eq_left (le_of_lt h)]
  · intro n
    simp only [calculateBackoff]
    split
    · omega
    · next h => omega

/-- C8 witness: the amended statement evaluated at n = 5, where the delay
is 64 s. -/
theorem c8_backoff_amended_witness :
    calculateBackoff 5 = min 300000000000 (2000000000 * 2 ^ (5 : Int).toNat) :=
  c8_backoff_amended.1 5 (by decide) (by decide)

/-- C9 counterexample: the claim says a repeated terminal report leaves the
stored task identical to its state after the first application.  A second
completed report at a later clock rewrites completed_at and updated_at, so
the states differ. -/
theorem c9_terminal_update_not_noop_counterexample :
    updateTaskStatus (updateTaskStatus taskY .completed (some "r") "" 1)
        .completed (some "r") "" 2 ≠
      updateTaskStatus taskY .completed (some "r") "" 1 := by
  decide

/-- C9 amended: repeating the same terminal report (completed with the
same result, or failed with the same error) is absorbed up to timestamps —
the twice-updated task equals the task updated once at the second report's
time, so status, result, error and retry_count are unchanged and only
completed_at/updated_at are refreshed. -/
theorem c9_terminal_update_idempotent_up_to_time (t : Task) (st : TaskStatus)
    (result : Option String) (errMsg : String) (n1 n2 : Nat)
    (h : st = TaskStatus.completed ∨ st = TaskStatus.failed) :
    updateTaskStatus (updateTaskStatus t st result errMsg n1) st result errMsg n2 =
      updateTaskStatus t st result errMsg n2 := by
  rcases h with h | h <;> subst h <;> rfl

/-- C9 witness: the amended statement at a concrete completed report
applied at clocks 1 and 2. -/
theorem c9_terminal_update_witness :
    updateTaskStatus (updateTaskStatus taskY .completed (some "r") "" 1)
        .completed (some "r") "" 2 =
      updateTaskStatus taskY .completed (some "r") "" 2 :=
  c9_terminal_update_idempotent_up_to_time taskY .completed (some "r") "" 1 2
    (Or.inl rfl)

/-- C10: on both public submission paths a non-positive max_retries is
replaced by the default 3 and a non-positive priority by the default 1, so
every created task has positive max_retries and priority. -/
theorem c10_submission_defaults (id workflowID : String) (now : Nat)
    (req : CreateTaskRequest) (spec : TaskSpec) :
    ((buildTaskFromRequest id workflowID now req).maxRetries =
        (if req.maxRetries > 0 then req.maxRetries else 3) ∧
      (buildTaskFromRequest id workflowID now req).priority =
        (if req.priority > 0 then req.priority else 1) ∧
      0 < (buildTaskFromRequest id workflowID now req).maxRetries ∧
      0 < (buildTaskFromRequest id workflowID now req).priority) ∧
    ((convertTaskSpec id workflowID now spec).maxRetries =
        (if spec.maxRetries > 0 then spec.maxRetries else 3) ∧
      (convertTaskSpec id workflowID now spec).priority =
        (if spec.priority > 0 then spec.priority else 1) ∧
      0 < (convertTaskSpec id workflowID now spec).maxRetries ∧
      0 < (convertTaskSpec id workflowID now spec).priority) := by
  constructor
  · simp only [buildTaskFromRequest, newTask]
    rcases req.dependencies with _ | deps <;> split_ifs <;> simp_all
  · simp only [convertTaskSpec, newTask]
    split_ifs <;> simp_all

/-! ## Correctness of the three-color DFS (towards claim C7) -/

lemma contains_eq_true_iff {l : List String} {a : String} :
    l.contains a = true ↔ a ∈ l := by
  simp

lemma length_lt_of_missing {v U : List String} {n : String}
    (hnd : v.Nodup) (hsub : v ⊆ U) (hnU : n ∈ U) (hnv : n ∉ v) :
    v.length < U.length := by
  have h1 : v.toFinset.card = v.length := List.toFinset_card_of_nodup hnd
  have h2 : v.toFinset ⊂ U.toFinset := by
    rw [Finset.ssubset_def]
    constructor
    · intro x hx
      rw [List.mem_toFinset] at hx ⊢
      exact hsub hx
    · intro hUV
      have hn : n ∈ v.toFinset := hUV (by rw [List.mem_toFinset]; exact hnU)
      rw [List.mem_toFinset] at hn
      exact hnv hn
  calc v.length = v.toFinset.card := h1.symm
    _ < U.toFinset.card := Finset.card_lt_card h2
    _ ≤ U.length := U.toFinset_card_le

lemma path_climb {g : String → List String} :
    ∀ (rest : List String) (n₀ d : String), PathOk g (n₀ :: rest) →
      d ∈ n₀ :: rest → Relation.ReflTransGen (GEdge g) d n₀ := by
  intro rest
  induction rest with
  | nil =>
    intro n₀ d _ hd
    have : d = n₀ := by simpa using hd
    subst this
    exact Relation.ReflTransGen.refl
  | cons n₁ rest ih =>
    intro n₀ d hp hd
    rcases List.mem_cons.mp hd with h | h
    · subst h
      exact Relation.ReflTransGen.refl
    · have hsplit := List.chain'_cons.mp hp
      have hstep : GEdge g n₁ n₀ := hsplit.1
      exact (ih n₁ d hsplit.2 h).tail hstep

lemma cycle_of_hit {g : String → List String} {n₀ : String} {rest : List String}
    {d : String} (hp : PathOk g (n₀ :: rest)) (hd : d ∈ n₀ :: rest)
    (he : d ∈ g n₀) : ∃ m, Relation.TransGen (GEdge g) m m :=
  ⟨d, Relation.TransGen.tail' (path_climb rest n₀ d hp hd) he⟩

lemma inv_push {g : String → List String} {v path : List String} {n : String}
    (hInv : Inv g v path) (hnv : n ∉ v) : Inv g (n :: v) (n :: path) := by
  intro m hm
  obtain ⟨hmv, hmp⟩ := hm
  have hmn : m ≠ n := fun h => hmp (h ▸ List.mem_cons_self n path)
  have hmv2 : m ∈ v := by
    rcases List.mem_cons.mp hmv with h | h
    · exact absurd h hmn
    · exact h
  have hmp2 : m ∉ path := fun h => hmp (List.mem_cons_of_mem n h)
  obtain ⟨hreach, hcyc⟩ := hInv m ⟨hmv2, hmp2⟩
  refine ⟨?_, hcyc⟩
  intro x hx
  obtain ⟨hxv, hxp⟩ := hreach x hx
  refine ⟨List.mem_cons_of_mem n hxv, ?_⟩
  intro hxn
  rcases List.mem_cons.mp hxn with h | h
  · exact hnv (h ▸ hxv)
  · exact hxp h

lemma inv_pop {g : String → List String} {vf path : List String} {n : String}
    (hInv : Inv g vf (n :: path)) (hn : n ∈ vf) (hnp : n ∉ path)
    (hdeps : ∀ d ∈ g n, d ∈ vf ∧ d ∉ (n :: path)) : Inv g vf path := by
  have hstep : ∀ d ∈ g n, ∀ x, Relation.ReflTransGen (GEdge g) d x →
      x ∈ vf ∧ x ∉ (n :: path) := by
    intro d hd x hx
    exact (hInv d ⟨(hdeps d hd).1, (hdeps d hd).2⟩).1 x hx
  intro m hm
  obtain ⟨hmv, hmp⟩ := hm
  by_cases hmn : m = n
  · subst hmn
    constructor
    · intro x hx
      rcases Relation.ReflTransGen.cases_head hx with h | ⟨c, hc, hcx⟩
      · exact h ▸ ⟨hmv, hmp⟩
      · have hb := hstep c hc x hcx
        exact ⟨hb.1, fun hxp => hb.2 (List.mem_cons_of_mem m hxp)⟩
    · intro hcy
      obtain ⟨c, hc, hcx⟩ := Relation.TransGen.head'_iff.mp hcy
      exact (hstep c hc m hcx).2 (List.mem_cons_self m path)
  · have hmblack : Black vf (n :: path) m := by
      refine ⟨hmv, ?_⟩
      intro h
      rcases List.mem_cons.mp h with h | h
      · exact hmn h
      · exact hmp h
    obtain ⟨hreach, hcyc⟩ := hInv m hmblack
    refine ⟨?_, hcyc⟩
    intro x hx
    obtain ⟨hxv, hxp⟩ := hreach x hx
    exact ⟨hxv, fun h => hxp (List.mem_cons_of_mem n h)⟩

lemma dfsDeps_spec {g : String → List String} {U : List String}
    (hg : ∀ m d, d ∈ g m → d ∈ U) (fuel : Nat)
    (hnode : NodeSpec g U fuel) : DepsSpec g U fuel := by
  intro deps
  induction deps with
  | nil =>
    intro n₀ path v _ hnd hvU _ _ hinv _
    constructor
    · intro h
      simp [dfsDeps] at h
    · intro _
      refine ⟨⟨List.suffix_refl v, hnd, hvU, hinv⟩, ?_⟩
      intro d hd
      simp at hd
  | cons d ds ih =>
    intro n₀ path v hdeps hnd hvU hpv hpok hinv hfuel
    have hd0 : d ∈ g n₀ := hdeps d (List.mem_cons_self d ds)
    have hds : ∀ x ∈ ds, x ∈ g n₀ := fun x hx => hdeps x (List.mem_cons_of_mem d hx)
    by_cases hvc : v.contains d = true
    · have hdv : d ∈ v := contains_eq_true_iff.mp hvc
      by_cases hpc : (n₀ :: path).contains d = true
      · have hdp : d ∈ n₀ :: path := contains_eq_true_iff.mp hpc
        have hor : d = n₀ ∨ d ∈ path := List.mem_cons.mp hdp
        have hres : dfsDeps (dfsNode g fuel) (d :: ds) v (n₀ :: path) = (true, v) := by
          simp [dfsDeps, hdv, hor]
        rw [hres]
        constructor
        · intro _
          exact cycle_of_hit hpok hdp hd0
        · intro h
          simp at h
      · have hdp : d ∉ (n₀ :: path) := fun h => hpc (contains_eq_true_iff.mpr h)
        have hdp2 : ¬(d = n₀ ∨ d ∈ path) := by simpa [List.mem_cons] using hdp
        have hres : dfsDeps (dfsNode g fuel) (d :: ds) v (n₀ :: path) =
            dfsDeps (dfsNode g fuel) ds v (n₀ :: path) := by
          simp [dfsDeps, hdv, hdp2]
        rw [hres]
        obtain ⟨htrue, hfalse⟩ := ih n₀ path v hds hnd hvU hpv hpok hinv hfuel
        refine ⟨htrue, ?_⟩
        intro hf
        obtain ⟨hpost, hall⟩ := hfalse hf
        refine ⟨hpost, ?_⟩
        intro x hx
        rcases List.mem_cons.mp hx with h | h
        · subst h
          exact ⟨hpost.1.subset hdv, hdp⟩
        · exact hall x h
    · have hdnv : d ∉ v := fun h => hvc (contains_eq_true_iff.mpr h)
      have hpokd : PathOk g (d :: n₀ :: path) := List.chain'_cons.mpr ⟨hd0, hpok⟩
      obtain ⟨hntrue, hnfalse⟩ :=
        hnode d v (n₀ :: path) hnd hvU hpv hpokd (hg n₀ d hd0) hdnv hinv hfuel
      rcases hres : dfsNode g fuel d v (n₀ :: path) with ⟨b, v₂⟩
      rw [hres] at hntrue hnfalse
      cases b
      · -- exploration returned false
        obtain ⟨hpost2, hdin⟩ := hnfalse rfl
        obtain ⟨hsuf2, hnd2, hvU2, hinv2⟩ := hpost2
        by_cases hpc : (n₀ :: path).contains d = true
        · have hdp : d ∈ n₀ :: path := contains_eq_true_iff.mp hpc
          have hor : d = n₀ ∨ d ∈ path := List.mem_cons.mp hdp
          have hres2 : dfsDeps (dfsNode g fuel) (d :: ds) v (n₀ :: path) =
              (true, v₂) := by
            simp [dfsDeps, hdnv, hres, hor]
          rw [hres2]
          constructor
          · intro _
            exact cycle_of_hit hpok hdp hd0
          · intro h
            simp at h
        · have hdp : d ∉ (n₀ :: path) := fun h => hpc (contains_eq_true_iff.mpr h)
          have hdp2 : ¬(d = n₀ ∨ d ∈ path) := by simpa [List.mem_cons] using hdp
          have hres2 : dfsDeps (dfsNode g fuel) (d :: ds) v (n₀ :: path) =
              dfsDeps (dfsNode g fuel) ds v₂ (n₀ :: path) := by
            simp [dfsDeps, hdnv, hres, hdp2]
          rw [hres2]
          have hpv2 : (n₀ :: path) ⊆ v₂ := fun x hx => hsuf2.subset (hpv hx)
          have hfuel2 : U.length - v₂.length ≤ fuel := by
            have hlen : v.length ≤ v₂.length := hsuf2.length_le
            omega
          obtain ⟨htrue2, hfalse2⟩ := ih n₀ path v₂ hds hnd2 hvU2 hpv2 hpok hinv2 hfuel2
          refine ⟨htrue2, ?_⟩
          intro hf
          obtain ⟨⟨hsuf3, hnd3, hvU3, hinv3⟩, hall3⟩ := hfalse2 hf
          refine ⟨⟨hsuf2.trans hsuf3, hnd3, hvU3, hinv3⟩, ?_⟩
          intro x hx
          rcases List.mem_cons.mp hx with h | h
          · subst h
            exact ⟨hsuf3.subset hdin, hdp⟩
          · exact hall3 x h
      · -- exploration returned true
        have hres2 : dfsDeps (dfsNode g fuel) (d :: ds) v (n₀ :: path) =
            (true, v₂) := by
          simp [dfsDeps, hdnv, hres]
        rw [hres2]
        constructor
        · intro _
          exact hntrue rfl
        · intro h
          simp at h

lemma dfsNode_spec {g : String → List String} {U : List String}
    (hg : ∀ m d, d ∈ g m → d ∈ U) : ∀ fuel, NodeSpec g U fuel := by
  intro fuel
  induction fuel with
  | zero =>
    intro n v path hnd hvU _ _ hnU hnv _ hfuel
    exfalso
    have := length_lt_of_missing hnd hvU hnU hnv
    omega
  | succ f ihf =>
    intro n v path hnd hvU hpv hpok hnU hnv hinv hfuel
    have hdepsSpec := dfsDeps_spec hg f ihf
    have hinv1 : Inv g (n :: v) (n :: path) := inv_push hinv hnv
    have hnd1 : (n :: v).Nodup := List.nodup_cons.mpr ⟨hnv, hnd⟩
    have hvU1 : (n :: v) ⊆ U := by
      intro x hx
      rcases List.mem_cons.mp hx with h | h
      · exact h ▸ hnU
      · exact hvU h
    have hpv1 : (n :: path) ⊆ (n :: v) := by
      intro x hx
      rcases List.mem_cons.mp hx with h | h
      · exact h ▸ List.mem_cons_self n v
      · exact List.mem_cons_of_mem n (hpv h)
    have hfuel1 : U.length - (n :: v).length ≤ f := by
      simp only [List.length_cons]
      omega
    obtain ⟨htrue, hfalse⟩ :=
      hdepsSpec (g n) n path (n :: v) (fun x hx => hx) hnd1 hvU1 hpv1 hpok hinv1 hfuel1
    have hunfold : dfsNode g (f + 1) n v path =
        dfsDeps (dfsNode g f) (g n) (n :: v) (n :: path) := rfl
    rw [hunfold]
    refine ⟨htrue, ?_⟩
    intro hf
    obtain ⟨⟨hsuf, hnd2, hvU2, hinv2⟩, hall⟩ := hfalse hf
    have hnin : n ∈ (dfsDeps (dfsNode g f) (g n) (n :: v) (n :: path)).2 :=
      hsuf.subset (List.mem_cons_self n v)
    have hnp : n ∉ path := fun h => hnv (hpv h)
    refine ⟨⟨(List.suffix_cons n v).trans hsuf, hnd2, hvU2, ?_⟩, hnin⟩
    exact inv_pop hinv2 hnin hnp (fun d hd => hall d hd)

lemma dfsForest_spec {g : String → List String} {U : List String}
    (hg : ∀ m d, d ∈ g m → d ∈ U) (fuel : Nat) :
    ∀ names v, names ⊆ U → v.Nodup → v ⊆ U → Inv g v [] →
    U.length - v.length ≤ fuel →
    (dfsForest g fuel names v = true → ∃ m, Relation.TransGen (GEdge g) m m) ∧
    (dfsForest g fuel names v = false →
      ∃ vf, v <:+ vf ∧ Inv g vf [] ∧ ∀ x ∈ names, x ∈ vf) := by
  intro names
  induction names with
  | nil =>
    intro v _ _ _ hinv _
    constructor
    · intro h
      simp [dfsForest] at h
    · intro _
      exact ⟨v, List.suffix_refl v, hinv, by simp⟩
  | cons n ns ih =>
    intro v hnames hnd hvU hinv hfuel
    have hnU : n ∈ U := hnames (List.mem_cons_self n ns)
    have hnsU : ns ⊆ U := fun x hx => hnames (List.mem_cons_of_mem n hx)
    by_cases hvc : v.contains n = true
    · have hnv : n ∈ v := contains_eq_true_iff.mp hvc
      have hres : dfsForest g fuel (n :: ns) v = dfsForest g fuel ns v := by
        simp [dfsForest, hnv]
      rw [hres]
      obtain ⟨ht, hf⟩ := ih v hnsU hnd hvU hinv hfuel
      refine ⟨ht, ?_⟩
      intro h
      obtain ⟨vf, hsuf, hinvf, hall⟩ := hf h
      refine ⟨vf, hsuf, hinvf, ?_⟩
      intro x hx
      rcases List.mem_cons.mp hx with h1 | h1
      · exact h1 ▸ hsuf.subset hnv
      · exact hall x h1
    · have hnv : n ∉ v := fun h => hvc (contains_eq_true_iff.mpr h)
      obtain ⟨hntrue, hnfalse⟩ := dfsNode_spec hg fuel n v []
        hnd hvU (by intro x hx; simp at hx) (List.chain'_singleton n) hnU hnv hinv hfuel
      rcases hres : dfsNode g fuel n v [] with ⟨b, v₂⟩
      rw [hres] at hntrue hnfalse
      cases b
      · -- exploration returned false
        obtain ⟨⟨hsuf, hnd2, hvU2, hinv2⟩, hnin⟩ := hnfalse rfl
        have hres2 : dfsForest g fuel (n :: ns) v = dfsForest g fuel ns v₂ := by
          simp [dfsForest, hnv, hres]
        rw [hres2]
        have hfuel2 : U.length - v₂.length ≤ fuel := by
          have hlen : v.length ≤ v₂.length := hsuf.length_le
          omega
        obtain ⟨ht2, hf2⟩ := ih v₂ hnsU hnd2 hvU2 hinv2 hfuel2
        refine ⟨ht2, ?_⟩
        intro h
        obtain ⟨vf, hsuf2, hinvf, hall⟩ := hf2 h
        have hsufv : v <:+ vf := List.IsSuffix.trans hsuf hsuf2
        refine ⟨vf, hsufv, hinvf, ?_⟩
        intro x hx
        rcases List.mem_cons.mp hx with h1 | h1
        · exact h1 ▸ hsuf2.subset hnin
        · exact hall x h1
      · -- exploration returned true
        have hres2 : dfsForest g fuel (n :: ns) v = true := by
          simp [dfsForest, hnv, hres]
        rw [hres2]
        constructor
        · intro _
          exact hntrue rfl
        · intro h
          simp at h

lemma foldl_depsStep_shape (Q : String × List String → Prop) :
    ∀ (ts : List Task) (acc : List (String × List String)),
      (∀ p ∈ acc, Q p) → (∀ t ∈ ts, Q (t.name, t.dependencies)) →
      ∀ p ∈ ts.foldl depsStep acc, Q p := by
  intro ts
  induction ts with
  | nil =>
    intro acc hacc _ p hp
    exact hacc p hp
  | cons t ts iht =>
    intro acc hacc hts p hp
    simp only [List.foldl_cons] at hp
    refine iht (depsStep acc t) ?_ (fun x hx => hts x (List.mem_cons_of_mem t hx)) p hp
    intro q hq
    rcases List.mem_cons.mp hq with h | h
    · exact h ▸ hts t (List.mem_cons_self t ts)
    · exact hacc q (List.mem_of_mem_filter h)

lemma buildTaskDeps_shape (tasks : List Task) :
    ∀ p ∈ buildTaskDeps tasks, ∃ t, t ∈ tasks ∧ p = (t.name, t.dependencies) := by
  intro p hp
  refine foldl_depsStep_shape
    (fun q => ∃ t, t ∈ tasks ∧ q = (t.name, t.dependencies)) tasks [] ?_ ?_ p hp
  · intro q hq
    simp at hq
  · intro t ht
    exact ⟨t, ht, rfl⟩

lemma depGraph_mem {tasks : List Task} {m d : String} (h : d ∈ depGraph tasks m) :
    m ∈ tasks.map Task.name ∧ d ∈ tasks.flatMap Task.dependencies := by
  unfold depGraph depsOf at h
  rcases hfind : (buildTaskDeps tasks).find? (fun p => p.1 == m) with _ | p
  · rw [hfind] at h
    simp at h
  · rw [hfind] at h
    have hp_mem := List.mem_of_find?_eq_some hfind
    have hp_eq := List.find?_some hfind
    simp only [beq_iff_eq] at hp_eq
    obtain ⟨t, ht, hpt⟩ := buildTaskDeps_shape tasks p hp_mem
    subst hpt
    constructor
    · exact List.mem_map.mpr ⟨t, ht, hp_eq⟩
    · exact List.mem_flatMap.mpr ⟨t, ht, h⟩

lemma hasCycle_iff (tasks : List Task) :
    hasCycle tasks = true ↔ HasDepCycle tasks := by
  have hg : ∀ m d, d ∈ depGraph tasks m → d ∈ cycleUniverse tasks := by
    intro m d hd
    exact List.mem_append_right _ (depGraph_mem hd).2
  have hforest := dfsForest_spec hg ((cycleUniverse tasks).length + 1)
    (tasks.map (fun t => t.name)) []
    (fun x hx => List.mem_append_left _ hx)
    List.nodup_nil
    (by intro x hx; simp at hx)
    (by intro m hm; exact absurd hm.1 (List.not_mem_nil m))
    (by omega)
  constructor
  · intro h
    exact hforest.1 h
  · intro hcyc
    rcases hres : hasCycle tasks with _ | _
    · exfalso
      obtain ⟨vf, _, hinvf, hall⟩ := hforest.2 hres
      obtain ⟨m, hm⟩ := hcyc
      obtain ⟨c, hc, _⟩ := Relation.TransGen.head'_iff.mp hm
      have hc2 : c ∈ depGraph tasks m := hc
      have hmv : m ∈ vf := hall m (depGraph_mem hc2).1
      exact (hinvf m ⟨hmv, List.not_mem_nil m⟩).2 hm
    · rfl

lemma findDanglingDep_eq_none_iff (names : List String) (tasks : List Task) :
    findDanglingDep names tasks = none ↔
      ∀ t ∈ tasks, ∀ d ∈ t.dependencies, d ∈ names := by
  induction tasks with
  | nil =>
    simp [findDanglingDep]
  | cons t ts ih =>
    rcases hfind : t.dependencies.find? (fun dep => !names.contains dep) with _ | d
    · have hall : ∀ d ∈ t.dependencies, d ∈ names := by
        intro d hd
        have hnd := List.find?_eq_none.mp hfind d hd
        simpa using hnd
      have hres : findDanglingDep names (t :: ts) = findDanglingDep names ts := by
        simp only [findDanglingDep]
        rw [hfind]
      rw [hres, ih]
      constructor
      · intro h x hx
        rcases List.mem_cons.mp hx with h1 | h1
        · exact h1 ▸ hall
        · exact h x h1
      · intro h x hx
        exact h x (List.mem_cons_of_mem t hx)
    · have hres : findDanglingDep names (t :: ts) = some (t.name, d) := by
        simp only [findDanglingDep]
        rw [hfind]
      rw [hres]
      constructor
      · intro h
        simp at h
      · intro h
        exfalso
        have hdmem := List.mem_of_find?_eq_some hfind
        have hdprop := List.find?_some hfind
        have hdn : d ∉ names := by simpa using hdprop
        exact hdn (h t (List.mem_cons_self t ts) d hdmem)

/-- C7: validateWorkflowDependencies accepts a task list exactly when every
dependency names a task of the same list and the dependency graph is
acyclic (no name reaches itself through dependency edges); it errors on
every dangling reference or cycle, and convertSpecToWorkflow propagates
that error, producing no workflow. -/
theorem c7_dependency_validation (tasks : List Task) :
    validateWorkflowDependencies tasks = none ↔
      ((∀ t ∈ tasks, ∀ d ∈ t.dependencies, d ∈ tasks.map Task.name) ∧
        ¬ HasDepCycle tasks) := by
  unfold validateWorkflowDependencies
  rcases hfind : findDanglingDep (tasks.map (fun t => t.name)) tasks with _ | p
  · simp only [hfind]
    have hnod := (findDanglingDep_eq_none_iff _ tasks).mp hfind
    by_cases hc : hasCycle tasks = true
    · rw [if_pos hc]
      constructor
      · intro h
        simp at h
      · intro h
        exact absurd ((hasCycle_iff tasks).mp hc) h.2
    · rw [if_neg hc]
      have hnocyc : ¬ HasDepCycle tasks := fun h => hc ((hasCycle_iff tasks).mpr h)
      constructor
      · intro _
        exact ⟨hnod, hnocyc⟩
      · intro _
        rfl
  · simp only [hfind]
    constructor
    · intro h
      simp at h
    · intro h
      exfalso
      have hnone := (findDanglingDep_eq_none_iff (tasks.map (fun t => t.name)) tasks).mpr h.1
      rw [hfind] at hnone
      simp at hnone

end FlowCtl
